import Mathlib

/-!
Shallow embedding of the audio codec helpers (src/services/gemini.ts) and the
live session manager (src/services/liveSessionManager.ts).

Bytes are natural numbers below 256, wire text is the list of character codes,
audio samples are rationals (Float32 values scaled by the power of two 32768
are exact, so the rational model is faithful on the inputs considered).
-/

namespace Gemini

/-- Base64 alphabet used by btoa: index 0..63 to character code. -/
def b64Char (s : ℕ) : ℕ :=
  if s < 26 then 65 + s
  else if s < 52 then 97 + (s - 26)
  else if s < 62 then 48 + (s - 52)
  else if s = 62 then 43
  else 47

/-- Inverse table used by atob: character code back to 6-bit index. -/
def b64Index (c : ℕ) : ℕ :=
  if 65 ≤ c ∧ c ≤ 90 then c - 65
  else if 97 ≤ c ∧ c ≤ 122 then c - 97 + 26
  else if 48 ≤ c ∧ c ≤ 57 then c - 48 + 52
  else if c = 43 then 62
  else if c = 47 then 63
  else 0

/-- Browser btoa on a binary string of bytes: groups of three bytes become
four alphabet characters; a final group of one or two bytes is padded with
the character 61, which prints as the equals sign. -/
def btoa : List ℕ → List ℕ
  | [] => []
  | [b0] => [b64Char (b0 / 4), b64Char (b0 % 4 * 16), 61, 61]
  | [b0, b1] =>
      [b64Char (b0 / 4), b64Char (b0 % 4 * 16 + b1 / 16), b64Char (b1 % 16 * 4), 61]
  | b0 :: b1 :: b2 :: rest =>
      b64Char (b0 / 4) :: b64Char (b0 % 4 * 16 + b1 / 16) ::
      b64Char (b1 % 16 * 4 + b2 / 64) :: b64Char (b2 % 64) :: btoa rest

/-- Browser atob: four characters back to three bytes, with the padding
character 61 signalling a short final group. -/
def atob : List ℕ → List ℕ
  | c0 :: c1 :: c2 :: c3 :: rest =>
      if c2 = 61 then [b64Index c0 * 4 + b64Index c1 / 16]
      else if c3 = 61 then
        [b64Index c0 * 4 + b64Index c1 / 16, b64Index c1 % 16 * 16 + b64Index c2 / 4]
      else
        (b64Index c0 * 4 + b64Index c1 / 16) ::
        (b64Index c1 % 16 * 16 + b64Index c2 / 4) ::
        (b64Index c2 % 4 * 64 + b64Index c3) :: atob rest
  | _ => []

/-- Source function decode (src/services/gemini.ts lines 407-415): atob the
base64 text and read each character code back as a byte. -/
def decode (base64 : List ℕ) : List ℕ := atob base64

lemma b64Index_b64Char : ∀ s < 64, b64Index (b64Char s) = s := by decide

lemma b64Char_ne_61 : ∀ s < 64, b64Char s ≠ 61 := by decide

lemma b64Char_lt_61_iff : ∀ s < 64, b64Char s ≠ 61 := b64Char_ne_61

/-- Round trip of the manual base64 encoding: atob undoes btoa on any byte
list. -/
theorem atob_btoa (bs : List ℕ) (h : ∀ b ∈ bs, b < 256) : atob (btoa bs) = bs := by
  induction bs using btoa.induct with
  | case1 => simp [btoa, atob]
  | case2 b0 =>
      have hb0 : b0 < 256 := h b0 (by simp)
      have h1 : b0 / 4 < 64 := by omega
      have h2 : b0 % 4 * 16 < 64 := by omega
      have e1 : btoa [b0] = [b64Char (b0 / 4), b64Char (b0 % 4 * 16), 61, 61] := by
        simp [btoa]
      rw [e1]
      show (if (61 : ℕ) = 61 then _ else _) = _
      rw [if_pos rfl, b64Index_b64Char _ h1, b64Index_b64Char _ h2]
      have e2 : b0 / 4 * 4 + b0 % 4 * 16 / 16 = b0 := by omega
      rw [e2]
  | case3 b0 b1 =>
      have hb0 : b0 < 256 := h b0 (by simp)
      have hb1 : b1 < 256 := h b1 (by simp)
      have h1 : b0 / 4 < 64 := by omega
      have h2 : b0 % 4 * 16 + b1 / 16 < 64 := by omega
      have h3 : b1 % 16 * 4 < 64 := by omega
      have e1 : btoa [b0, b1] =
          [b64Char (b0 / 4), b64Char (b0 % 4 * 16 + b1 / 16), b64Char (b1 % 16 * 4), 61] := by
        simp [btoa]
      rw [e1]
      show (if b64Char (b1 % 16 * 4) = 61 then _ else _) = _
      rw [if_neg (b64Char_ne_61 _ h3)]
      rw [if_pos rfl, b64Index_b64Char _ h1, b64Index_b64Char _ h2, b64Index_b64Char _ h3]
      have e2 : b0 / 4 * 4 + (b0 % 4 * 16 + b1 / 16) / 16 = b0 := by omega
      have e3 : (b0 % 4 * 16 + b1 / 16) % 16 * 16 + b1 % 16 * 4 / 4 = b1 := by omega
      rw [e2, e3]
  | case4 b0 b1 b2 rest ih =>
      have hb0 : b0 < 256 := h b0 (by simp)
      have hb1 : b1 < 256 := h b1 (by simp)
      have hb2 : b2 < 256 := h b2 (by simp)
      have h1 : b0 / 4 < 64 := by omega
      have h2 : b0 % 4 * 16 + b1 / 16 < 64 := by omega
      have h3 : b1 % 16 * 4 + b2 / 64 < 64 := by omega
      have h4 : b2 % 64 < 64 := by omega
      have hrest : ∀ b ∈ rest, b < 256 := by
        intro b hb
        exact h b (by simp [hb])
      show (if b64Char (b1 % 16 * 4 + b2 / 64) = 61 then _ else _) = _
      rw [if_neg (b64Char_ne_61 _ h3), if_neg (b64Char_ne_61 _ h4)]
      rw [b64Index_b64Char _ h1, b64Index_b64Char _ h2, b64Index_b64Char _ h3,
        b64Index_b64Char _ h4, ih hrest]
      have e2 : b0 / 4 * 4 + (b0 % 4 * 16 + b1 / 16) / 16 = b0 := by omega
      have e3 : (b0 % 4 * 16 + b1 / 16) % 16 * 16 + (b1 % 16 * 4 + b2 / 64) / 4 = b1 := by
        omega
      have e4 : (b1 % 16 * 4 + b2 / 64) % 4 * 64 + b2 % 64 = b2 := by omega
      rw [e2, e3, e4]

/-- Truncation toward zero, the integer conversion ECMAScript performs when a
Number is written into an Int16Array element. -/
def jsTrunc (q : ℚ) : ℤ :=
  if 0 ≤ q then ⌊q⌋ else ⌈q⌉

/-- ECMAScript ToInt16: truncate toward zero, reduce modulo 2^16, and map the
residue into the signed range. This is the semantics of the assignment
int16 i = data i * 32768 in createBlob. -/
def toInt16 (q : ℚ) : ℤ :=
  if jsTrunc q % 65536 < 32768 then jsTrunc q % 65536
  else jsTrunc q % 65536 - 65536

/-- Little-endian byte pair of one Int16Array element as seen through a
Uint8Array view of the same buffer. -/
def int16ToBytesLE (v : ℤ) : List ℕ :=
  [((v % 65536) % 256).toNat, ((v % 65536) / 256).toNat]

/-- Wire blob returned by createBlob: base64 text plus the fixed MIME tag. -/
structure WireBlob where
  data : List ℕ
  mimeType : String
deriving DecidableEq

/-- Source function createBlob (src/services/gemini.ts lines 382-405):
quantize each sample by writing sample * 32768 into an Int16Array, view the
buffer as bytes, and base64-encode them with btoa. -/
def createBlob (samples : List ℚ) : WireBlob :=
  let int16 := samples.map (fun s => toInt16 (s * 32768))
  { data := btoa ((int16.map int16ToBytesLE).flatten),
    mimeType := "audio/pcm;rate=16000" }

/-- Int16Array view over a byte buffer: consecutive little-endian byte pairs
read back as signed 16-bit integers (a trailing odd byte cannot occur on the
inputs considered). -/
def bytesToInt16s : List ℕ → List ℤ
  | lo :: hi :: rest =>
      (if lo + 256 * hi < 32768 then ((lo + 256 * hi : ℕ) : ℤ)
       else ((lo + 256 * hi : ℕ) : ℤ) - 65536) :: bytesToInt16s rest
  | _ => []

/-- Source function decodeAudioData (src/services/gemini.ts lines 417-434):
reinterpret the bytes as little-endian int16, de-interleave by channel, and
rescale each sample by dividing by 32768. Channel c, frame i reads source
index i * numChannels + c. -/
def decodeAudioData (data : List ℕ) (numChannels : ℕ) : List (List ℚ) :=
  let dataInt16 := bytesToInt16s data
  let frameCount := dataInt16.length / numChannels
  (List.range numChannels).map (fun channel =>
    (List.range frameCount).map (fun i =>
      ((dataInt16.getD (i * numChannels + channel) 0 : ℤ) : ℚ) / 32768))

lemma int16ToBytesLE_lt (v : ℤ) : ∀ b ∈ int16ToBytesLE v, b < 256 := by
  intro b hb
  have h0 : (0 : ℤ) ≤ v % 65536 := Int.emod_nonneg v (by norm_num)
  have h1 : v % 65536 < 65536 := Int.emod_lt_of_pos v (by norm_num)
  simp only [int16ToBytesLE, List.mem_cons, List.mem_singleton] at hb
  rcases hb with rfl | rfl | hfalse
  · omega
  · omega
  · cases hfalse

lemma jsTrunc_bounds (s : ℚ) (h1 : -1 ≤ s) (h2 : s < 1) :
    -32768 ≤ jsTrunc (s * 32768) ∧ jsTrunc (s * 32768) ≤ 32767 := by
  have hlo : (-32768 : ℚ) ≤ s * 32768 := by linarith
  have hhi : s * 32768 < 32768 := by linarith
  unfold jsTrunc
  by_cases hq : 0 ≤ s * 32768
  · rw [if_pos hq]
    constructor
    · have := Int.floor_nonneg.mpr hq
      omega
    · have : ⌊s * 32768⌋ < (32768 : ℤ) := Int.floor_lt.mpr (by exact_mod_cast hhi)
      omega
  · rw [if_neg hq]
    push_neg at hq
    constructor
    · have hc : (-32768 : ℤ) ≤ ⌈s * 32768⌉ := by
        rw [Int.le_ceil_iff]
        push_cast
        linarith
      omega
    · have hc : ⌈s * 32768⌉ ≤ 0 := Int.ceil_le.mpr (le_of_lt hq)
      omega

/-- In the unwrapped range the modulo reduction of ToInt16 is the identity. -/
lemma toInt16_eq_jsTrunc (q : ℚ) (h1 : -32768 ≤ jsTrunc q) (h2 : jsTrunc q ≤ 32767) :
    toInt16 q = jsTrunc q := by
  unfold toInt16
  omega

lemma bytesToInt16s_int16ToBytesLE (v : ℤ) (rest : List ℕ)
    (h1 : -32768 ≤ v) (h2 : v ≤ 32767) :
    bytesToInt16s (int16ToBytesLE v ++ rest) = v :: bytesToInt16s rest := by
  have h0 : (0 : ℤ) ≤ v % 65536 := Int.emod_nonneg v (by norm_num)
  have h65536 : v % 65536 < 65536 := Int.emod_lt_of_pos v (by norm_num)
  simp only [int16ToBytesLE, List.cons_append, List.nil_append, bytesToInt16s]
  congr 1
  omega

/-- Decoding the blob recovers exactly the quantized int16 values. -/
lemma bytesToInt16s_decode_createBlob (samples : List ℚ)
    (h : ∀ s ∈ samples, -1 ≤ s ∧ s < 1) :
    bytesToInt16s (decode (createBlob samples).data) =
      samples.map (fun s => toInt16 (s * 32768)) := by
  unfold createBlob decode
  rw [atob_btoa]
  · induction samples with
    | nil => simp [bytesToInt16s]
    | cons s rest ih =>
        have hs := h s (by simp)
        have hb := jsTrunc_bounds s hs.1 hs.2
        have hid := toInt16_eq_jsTrunc (s * 32768) hb.1 hb.2
        simp only [List.map_cons, List.flatten_cons]
        rw [bytesToInt16s_int16ToBytesLE _ _ (by omega) (by omega)]
        rw [ih]
        intro x hx
        exact h x (by simp [hx])
  · intro b hb
    simp only [List.mem_flatten, List.mem_map] at hb
    obtain ⟨l, ⟨w, _, rfl⟩, hbl⟩ := hb
    exact int16ToBytesLE_lt w b hbl

lemma jsTrunc_sub_round_le (q : ℚ) : |jsTrunc q - round q| ≤ 1 := by
  rw [round_eq]
  have f1 : ⌊q⌋ ≤ ⌊q + 1 / 2⌋ := Int.floor_mono (by linarith)
  have f2 : ⌊q + 1 / 2⌋ ≤ ⌊q⌋ + 1 := by
    have h1 : ⌊q + 1 / 2⌋ ≤ ⌊q + 1⌋ := Int.floor_mono (by linarith)
    have h2 : ⌊q + 1⌋ = ⌊q⌋ + 1 := by
      exact_mod_cast Int.floor_add_int q 1
    omega
  have f3 : ⌊q⌋ ≤ ⌈q⌉ := Int.floor_le_ceil q
  have f4 : ⌈q⌉ ≤ ⌊q⌋ + 1 := Int.ceil_le_floor_add_one q
  unfold jsTrunc
  by_cases hq : 0 ≤ q
  · rw [if_pos hq, abs_le]
    omega
  · rw [if_neg hq, abs_le]
    omega

lemma jsTrunc_sub_self (q : ℚ) : |(jsTrunc q : ℚ) - q| ≤ 1 := by
  unfold jsTrunc
  by_cases hq : 0 ≤ q
  · rw [if_pos hq, abs_le]
    constructor
    · have := Int.sub_one_lt_floor q
      push_cast at this ⊢
      linarith
    · have := Int.floor_le q
      linarith
  · rw [if_neg hq, abs_le]
    constructor
    · have := Int.le_ceil q
      linarith
    · have := Int.ceil_lt_add_one q
      push_cast at this ⊢
      linarith

lemma sample_round_trip_bound (s : ℚ) (h1 : -1 ≤ s) (h2 : s < 1) :
    |((toInt16 (s * 32768) : ℤ) : ℚ) / 32768 - s| ≤ 1 / 32768 := by
  have hb := jsTrunc_bounds s h1 h2
  rw [toInt16_eq_jsTrunc _ hb.1 hb.2]
  have h3 := jsTrunc_sub_self (s * 32768)
  have e : ((jsTrunc (s * 32768) : ℤ) : ℚ) / 32768 - s
      = (((jsTrunc (s * 32768) : ℤ) : ℚ) - s * 32768) / 32768 := by ring
  rw [e, abs_div, abs_of_pos (by norm_num : (0 : ℚ) < 32768)]
  exact (div_le_div_iff_of_pos_right (by norm_num)).mpr h3

lemma range_map_getD_div (l : List ℤ) :
    (List.range l.length).map (fun i => ((l.getD i 0 : ℤ) : ℚ) / 32768) =
      l.map (fun v => ((v : ℤ) : ℚ) / 32768) := by
  induction l with
  | nil => simp
  | cons a l ih =>
      simp only [List.length_cons, List.range_succ_eq_map, List.map_cons,
        List.getD_cons_zero, List.map_map]
      congr 1

/-- Mono decode: with channel count one, decodeAudioData returns a single
channel holding every int16 sample divided by 32768. -/
lemma decodeAudioData_one (bytes : List ℕ) :
    (decodeAudioData bytes 1).getD 0 [] =
      (bytesToInt16s bytes).map (fun v => ((v : ℤ) : ℚ) / 32768) := by
  simp only [decodeAudioData]
  have hr1 : List.range 1 = [0] := rfl
  rw [hr1]
  simp only [List.map_cons, List.map_nil, List.getD_cons_zero, Nat.div_one]
  have e : (fun i => ((List.getD (bytesToInt16s bytes) (i * 1 + 0) 0 : ℤ) : ℚ) / 32768)
      = fun i => ((List.getD (bytesToInt16s bytes) i 0 : ℤ) : ℚ) / 32768 := by
    funext i
    simp
  rw [e, range_map_getD_div]

/-- C3 (amended to samples in the half-open interval): decoding the blob and
reading the bytes back as little-endian int16 gives, for each element, a
value within one unit of round of sample times 32768. At exactly 1 the
Int16Array write wraps to -32768, so the closed interval of the original
claim fails; see the counterexample. -/
theorem claim_C3_quantization_bound (samples : List ℚ)
    (h : ∀ s ∈ samples, -1 ≤ s ∧ s < 1) :
    List.Forall₂ (fun v s => |v - round (s * 32768)| ≤ 1)
      (bytesToInt16s (decode (createBlob samples).data)) samples := by
  rw [bytesToInt16s_decode_createBlob samples h]
  revert h
  induction samples with
  | nil =>
      intro h
      exact List.Forall₂.nil
  | cons s rest ih =>
      intro h
      have hs := h s (by simp)
      refine List.Forall₂.cons ?_ (ih fun x hx => h x (by simp [hx]))
      show |toInt16 (s * 32768) - round (s * 32768)| ≤ 1
      have hb := jsTrunc_bounds s hs.1 hs.2
      rw [toInt16_eq_jsTrunc _ hb.1 hb.2]
      exact jsTrunc_sub_round_le (s * 32768)

lemma toInt16_one : toInt16 ((1 : ℚ) * 32768) = -32768 := by
  have h1 : jsTrunc ((1 : ℚ) * 32768) = 32768 := by
    rw [jsTrunc, if_pos (by norm_num)]
    norm_num
  rw [toInt16, h1]
  decide

lemma createBlob_one_data : (createBlob [(1 : ℚ)]).data = btoa [0, 128] := by
  simp only [createBlob, List.map_cons, List.map_nil, toInt16_one]
  rfl

/-- C3 counterexample: at sample exactly 1, the source quantization
int16 i = data i * 32768 wraps 32768 to -32768, which is 65536 away from
round of 1 times 32768, violating the within-one-unit claim on the closed
interval. -/
theorem claim_C3_counterexample :
    ¬ |(bytesToInt16s (decode (createBlob [(1 : ℚ)]).data)).getD 0 0 -
        round ((1 : ℚ) * 32768)| ≤ 1 := by
  rw [createBlob_one_data]
  have hv : (bytesToInt16s (decode (btoa [0, 128]))).getD 0 0 = -32768 := by decide
  have hr : round ((1 : ℚ) * 32768) = 32768 := by norm_num
  rw [hv, hr]
  decide

/-- Witness for C3 at a concrete two-sample frame. -/
theorem claim_C3_witness :
    (∀ s ∈ ([1 / 2, -1] : List ℚ), -1 ≤ s ∧ s < 1) ∧
    List.Forall₂ (fun v s => |v - round (s * 32768)| ≤ 1)
      (bytesToInt16s (decode (createBlob ([1 / 2, -1] : List ℚ)).data))
      ([1 / 2, -1] : List ℚ) :=
  ⟨by norm_num [List.forall_mem_cons],
   claim_C3_quantization_bound _ (by norm_num [List.forall_mem_cons])⟩

/-- C4 (amended to samples in the half-open interval): encode with createBlob,
base64-decode, and PCM-decode with channel count 1; each reconstructed mono
sample is within 1 over 32768 of the original. At exactly 1 the quantization
wraps and the bound fails; see the counterexample. -/
theorem claim_C4_mono_round_trip (samples : List ℚ)
    (h : ∀ s ∈ samples, -1 ≤ s ∧ s < 1) :
    List.Forall₂ (fun o s => |o - s| ≤ 1 / 32768)
      ((decodeAudioData (decode (createBlob samples).data) 1).getD 0 []) samples := by
  rw [decodeAudioData_one, bytesToInt16s_decode_createBlob samples h, List.map_map]
  revert h
  induction samples with
  | nil =>
      intro h
      exact List.Forall₂.nil
  | cons s rest ih =>
      intro h
      have hs := h s (by simp)
      refine List.Forall₂.cons ?_ (ih fun x hx => h x (by simp [hx]))
      show |((toInt16 (s * 32768) : ℤ) : ℚ) / 32768 - s| ≤ 1 / 32768
      exact sample_round_trip_bound s hs.1 hs.2

/-- C4 counterexample: at sample exactly 1 the round trip returns -1, a full
2 away from the original, far beyond 1 over 32768. -/
theorem claim_C4_counterexample :
    ¬ |((decodeAudioData (decode (createBlob [(1 : ℚ)]).data) 1).getD 0 []).getD 0 0
        - 1| ≤ 1 / 32768 := by
  rw [createBlob_one_data, decodeAudioData_one]
  have hv : bytesToInt16s (decode (btoa [0, 128])) = [-32768] := by decide
  rw [hv]
  norm_num

/-- Witness for C4 at a concrete two-sample frame. -/
theorem claim_C4_witness :
    (∀ s ∈ ([1 / 2, -1] : List ℚ), -1 ≤ s ∧ s < 1) ∧
    List.Forall₂ (fun o s => |o - s| ≤ 1 / 32768)
      ((decodeAudioData (decode (createBlob ([1 / 2, -1] : List ℚ)).data) 1).getD 0 [])
      ([1 / 2, -1] : List ℚ) :=
  ⟨by norm_num [List.forall_mem_cons],
   claim_C4_mono_round_trip _ (by norm_num [List.forall_mem_cons])⟩

/-- C5: the byte-level text round trip is exact: decoding the base64 text
produced by the frame encoder returns the original byte sequence unchanged. -/
theorem claim_C5_text_round_trip (bs : List ℕ) (h : ∀ b ∈ bs, b < 256) :
    decode (btoa bs) = bs :=
  atob_btoa bs h

/-- Witness for C5 on a concrete byte sequence exercising all three padding
shapes via length 5. -/
theorem claim_C5_witness :
    (∀ b ∈ ([77, 97, 110, 0, 255] : List ℕ), b < 256) ∧
    decode (btoa [77, 97, 110, 0, 255]) = [77, 97, 110, 0, 255] :=
  ⟨by decide, claim_C5_text_round_trip _ (by decide)⟩

end Gemini

namespace LiveSessionManager

/-- One scheduled output AudioBufferSourceNode. The finished flag records
whether playback already ended, in which case a stop call faults (the fault
is caught and ignored by the source). -/
structure Chunk where
  finished : Bool
deriving DecidableEq

/-- Resolved transport session handle; closeFails models a close call that
throws. -/
structure SessionHandle where
  closeFails : Bool
deriving DecidableEq

/-- Instance fields of the LiveSessionManager class
(src/services/liveSessionManager.ts lines 10-18). Audio contexts and the
gain node are tracked as open flags; sources is the active-chunks set. -/
structure ManagerState where
  active : Bool
  nextStartTime : ℚ
  sources : List Chunk
  inputCtxOpen : Bool
  outputCtxOpen : Bool
  outputGainPresent : Bool
  sessionPromise : Option SessionHandle
deriving DecidableEq

/-- Fresh manager instance: inactive, cursor zero, empty chunk set, no
contexts, no session. -/
def initialState : ManagerState :=
  { active := false
    nextStartTime := 0
    sources := []
    inputCtxOpen := false
    outputCtxOpen := false
    outputGainPresent := false
    sessionPromise := none }

/-- Externally observable side effects of the manager, in program order. -/
inductive Effect where
  | micRequest
  | transportConnect
  | onErrorCall (msg : String)
  | onConnectedCall
  | onLevelCall (v : ℚ)
  | sendFrame
  | setInactive
  | awaitSessionClose
  | sessionCloseOk
  | sessionCloseCaught
  | ctxCloseInput
  | ctxCloseOutput
  | chunkStopAttempt (alreadyFinished : Bool)
  | scheduleChunk (startTime duration : ℚ)
deriving DecidableEq

/-- isActive (src/services/liveSessionManager.ts lines 204-206): pure query
of the active flag. -/
def isActive (st : ManagerState) : Bool :=
  st.active

/-- Synchronous prefix of connect (lines 29-44), everything executed before
the first await: the early return when already active, then setting active
and creating both audio contexts and the output gain node. -/
def connectBegin (st : ManagerState) : ManagerState :=
  if st.active then st
  else
    { st with
        active := true
        inputCtxOpen := true
        outputCtxOpen := true
        outputGainPresent := true }

/-- Continuation of connect after the microphone permission await
(lines 46-61): on denial report the error and drop the active flag; on grant
open the transport session. -/
def connectMicResult (st : ManagerState) (granted : Bool) : ManagerState × List Effect :=
  if granted then
    ({ st with sessionPromise := some { closeFails := false } },
     [Effect.transportConnect])
  else
    ({ st with active := false },
     [Effect.onErrorCall "Microphone access denied"])

/-- connect (src/services/liveSessionManager.ts lines 24-61) run to the
point where the transport session is requested, with the microphone
permission outcome as a parameter. -/
def connect (st : ManagerState) (micGranted : Bool) : ManagerState × List Effect :=
  if st.active then (st, [])
  else
    let st1 :=
      { st with
          active := true
          inputCtxOpen := true
          outputCtxOpen := true
          outputGainPresent := true }
    if micGranted then
      ({ st1 with sessionPromise := some { closeFails := false } },
       [Effect.micRequest, Effect.transportConnect])
    else
      ({ st1 with active := false },
       [Effect.micRequest, Effect.onErrorCall "Microphone access denied"])

/-- onopen callback (lines 64-105): resumes the contexts, wires the script
processor when the input context is present, and invokes onConnected. The
active flag is not touched. -/
def onTransportOpen (st : ManagerState) : ManagerState × List Effect :=
  if st.inputCtxOpen then (st, [Effect.onConnectedCall])
  else (st, [])

/-- Mean absolute amplitude of a capture frame (lines 86-90). -/
def meanAbs (frame : List ℚ) : ℚ :=
  (frame.map (fun x => |x|)).sum / frame.length

/-- onaudioprocess capture callback (lines 80-98): bail out when no longer
active; otherwise report the visualizer level and, when a session promise
exists and the manager is still active, transmit the encoded frame. -/
def onaudioprocess (st : ManagerState) (frame : List ℚ) : ManagerState × List Effect :=
  if st.active then
    match st.sessionPromise with
    | some _ => (st, [Effect.onLevelCall (meanAbs frame), Effect.sendFrame])
    | none => (st, [Effect.onLevelCall (meanAbs frame)])
  else (st, [])

/-- onmessage callback (lines 106-168). The audio payload is abstracted to
the decoded buffer duration; decodeOk is false when decodeAudioData throws,
in which case the chunk is dropped (but nextStartTime has already been maxed
with the clock). An interruption stops every chunk best-effort, clears the
set and resets the cursor. -/
def onmessage (st : ManagerState) (audio : Option ℚ) (interrupted : Bool)
    (clock : ℚ) (decodeOk : Bool) : ManagerState × List Effect :=
  if st.active && st.outputCtxOpen && st.outputGainPresent then
    let r1 : ManagerState × List Effect :=
      match audio with
      | none => (st, [])
      | some d =>
          let nst := max st.nextStartTime clock
          if decodeOk then
            ({ st with
                nextStartTime := nst + d
                sources := st.sources ++ [{ finished := false }] },
             [Effect.scheduleChunk nst d, Effect.onLevelCall (1 / 2)])
          else
            ({ st with nextStartTime := nst }, [])
    if interrupted then
      ({ r1.1 with sources := [], nextStartTime := 0 },
       r1.2 ++ r1.1.sources.map (fun c => Effect.chunkStopAttempt c.finished))
    else r1
  else (st, [])

/-- onclose callback (lines 169-172): mark inactive. -/
def onclose (st : ManagerState) : ManagerState :=
  { st with active := false }

/-- onerror callback (lines 173-177): propagate to onError and mark
inactive. -/
def onerror (st : ManagerState) (e : String) : ManagerState × List Effect :=
  ({ st with active := false }, [Effect.onErrorCall e])

/-- ended listener of one chunk (lines 142-144): the chunk removes itself
from the set. -/
def chunkEnded (st : ManagerState) (i : ℕ) : ManagerState :=
  { st with sources := st.sources.eraseIdx i }

/-- disconnect (src/services/liveSessionManager.ts lines 208-228): drop the
active flag first, then await and close the session with any close fault
caught, close both contexts, stop every chunk best-effort, clear the set and
null the session reference. The function is total: no fault escapes to the
caller. -/
def disconnect (st : ManagerState) : ManagerState × List Effect :=
  let closeEffects :=
    match st.sessionPromise with
    | some h =>
        [Effect.awaitSessionClose] ++
        (if h.closeFails then [Effect.sessionCloseCaught] else [Effect.sessionCloseOk])
    | none => []
  ({ st with
      active := false
      sessionPromise := none
      sources := []
      inputCtxOpen := false
      outputCtxOpen := false },
   [Effect.setInactive] ++ closeEffects ++
   [Effect.ctxCloseInput, Effect.ctxCloseOutput] ++
   st.sources.map (fun c => Effect.chunkStopAttempt c.finished))

/-- Discrete events that mutate manager state, matching the single-threaded
event model of the source. -/
inductive Event where
  | evConnectBegin
  | evMicResult (granted : Bool)
  | evTransportOpen
  | evMessage (audio : Option ℚ) (interrupted : Bool) (clock : ℚ) (decodeOk : Bool)
  | evFrame (frame : List ℚ)
  | evChunkEnded (i : ℕ)
  | evClose
  | evError (msg : String)
  | evDisconnect

/-- One event step of the manager. -/
def step (st : ManagerState) (e : Event) : ManagerState × List Effect :=
  match e with
  | Event.evConnectBegin => (connectBegin st, [])
  | Event.evMicResult g => connectMicResult st g
  | Event.evTransportOpen => onTransportOpen st
  | Event.evMessage a i c d => onmessage st a i c d
  | Event.evFrame f => onaudioprocess st f
  | Event.evChunkEnded i => (chunkEnded st i, [])
  | Event.evClose => (onclose st, [])
  | Event.evError m => onerror st m
  | Event.evDisconnect => disconnect st

lemma onTransportOpen_fst (st : ManagerState) : (onTransportOpen st).1 = st := by
  unfold onTransportOpen
  split <;> rfl

lemma onaudioprocess_fst (st : ManagerState) (f : List ℚ) :
    (onaudioprocess st f).1 = st := by
  unfold onaudioprocess
  split
  · cases st.sessionPromise <;> rfl
  · rfl

lemma onmessage_fst_active (st : ManagerState) (a : Option ℚ) (i : Bool)
    (c : ℚ) (d : Bool) : (onmessage st a i c d).1.active = st.active := by
  cases a with
  | none =>
      unfold onmessage
      dsimp only
      split
      · split <;> rfl
      · rfl
  | some v =>
      unfold onmessage
      dsimp only
      split
      · split
        · split <;> rfl
        · split <;> rfl
      · rfl

/-- C2 (amended): if the microphone is denied during connect on an idle
manager, onError receives the descriptive failure, the manager ends
inactive, no transport session is created — but the two audio contexts
created before the permission request are left open, not closed as the
original claim requires. -/
theorem claim_C2_mic_denied (st : ManagerState) (h : st.active = false) :
    isActive (connect st false).1 = false ∧
    Effect.onErrorCall "Microphone access denied" ∈ (connect st false).2 ∧
    (connect st false).1.sessionPromise = st.sessionPromise ∧
    Effect.transportConnect ∉ (connect st false).2 ∧
    (connect st false).1.inputCtxOpen = true ∧
    (connect st false).1.outputCtxOpen = true := by
  simp [connect, isActive, h]

/-- Witness for C2 on a fresh manager. -/
theorem claim_C2_witness :
    isActive (connect initialState false).1 = false ∧
    Effect.onErrorCall "Microphone access denied" ∈ (connect initialState false).2 ∧
    (connect initialState false).1.sessionPromise = initialState.sessionPromise ∧
    Effect.transportConnect ∉ (connect initialState false).2 ∧
    (connect initialState false).1.inputCtxOpen = true ∧
    (connect initialState false).1.outputCtxOpen = true :=
  claim_C2_mic_denied initialState rfl

/-- C2 counterexample: on a fresh manager with the microphone denied, both
audio contexts created at the top of connect remain open afterwards even
though the session is left unconnected, contradicting the claim that no
audio contexts are left open on this path. -/
theorem claim_C2_counterexample :
    (connect initialState false).1.inputCtxOpen = true ∧
    (connect initialState false).1.outputCtxOpen = true ∧
    isActive (connect initialState false).1 = false := by
  simp [connect, initialState, isActive]

/-- C6 (amended): while the session is active and the output context and
gain are present, processing any message carrying the interruption signal
leaves the active-chunks set empty and nextStartTime at zero, whether or not
the message also carries audio and regardless of how many chunks were
scheduled. Stop faults of already finished chunks are caught. When the
manager is inactive the handler returns without touching the set; see the
counterexample. -/
theorem claim_C6_interruption (st : ManagerState) (audio : Option ℚ) (clock : ℚ)
    (decodeOk : Bool) (h1 : st.active = true) (h2 : st.outputCtxOpen = true)
    (h3 : st.outputGainPresent = true) :
    (onmessage st audio true clock decodeOk).1.sources = [] ∧
    (onmessage st audio true clock decodeOk).1.nextStartTime = 0 := by
  unfold onmessage
  rw [h1, h2, h3]
  cases audio <;> simp

/-- Witness for C6 on an active state holding five scheduled chunks. -/
theorem claim_C6_witness :
    (onmessage
        { active := true, nextStartTime := 7,
          sources := [⟨false⟩, ⟨true⟩, ⟨false⟩, ⟨false⟩, ⟨true⟩],
          inputCtxOpen := true, outputCtxOpen := true,
          outputGainPresent := true, sessionPromise := some ⟨false⟩ }
        none true 0 true).1.sources = [] ∧
    (onmessage
        { active := true, nextStartTime := 7,
          sources := [⟨false⟩, ⟨true⟩, ⟨false⟩, ⟨false⟩, ⟨true⟩],
          inputCtxOpen := true, outputCtxOpen := true,
          outputGainPresent := true, sessionPromise := some ⟨false⟩ }
        none true 0 true).1.nextStartTime = 0 :=
  claim_C6_interruption _ none 0 true rfl rfl rfl

/-- C6 counterexample: connect, schedule one chunk, then a transport error
marks the manager inactive while the chunk stays registered; a subsequent
interruption message is ignored by the guard at the top of onmessage, so the
active-chunks set is not cleared — the claim fails for this session state. -/
theorem claim_C6_counterexample :
    (onmessage
        (onerror
          (onmessage (connect initialState true).1 (some 1) false 0 true).1
          "transport error").1
        none true 0 true).1.sources ≠ [] := by
  simp [connect, initialState, onmessage, onerror]

/-- C7: a connect call issued while a session is already active is a pure
no-op, so across two back-to-back connect calls (the second observing the
state left by the synchronous prefix of the first, which sets the active
flag before any await) the transport connection routine runs at most once
and the second call performs no microphone request and creates no
contexts. -/
theorem claim_C7_connect_noop (st : ManagerState) (g1 g2 : Bool)
    (h : st.active = false) :
    connect (connectBegin st) g2 = (connectBegin st, []) ∧
    ((connect st g1).2 ++ (connect (connectBegin st) g2).2).count
        Effect.transportConnect ≤ 1 ∧
    (connect (connectBegin st) g2).2.count Effect.micRequest = 0 := by
  have hb : (connectBegin st).active = true := by
    simp [connectBegin, h]
  have h2 : connect (connectBegin st) g2 = (connectBegin st, []) := by
    simp [connect, hb]
  refine ⟨h2, ?_, by simp [h2]⟩
  rw [h2]
  cases g1 <;> simp [connect, h, List.count_cons]

/-- Witness for C7 on a fresh manager with the microphone granted. -/
theorem claim_C7_witness :
    connect (connectBegin initialState) true = (connectBegin initialState, []) ∧
    ((connect initialState true).2 ++ (connect (connectBegin initialState) true).2).count
        Effect.transportConnect ≤ 1 ∧
    (connect (connectBegin initialState) true).2.count Effect.micRequest = 0 :=
  claim_C7_connect_noop initialState true true rfl

/-- C8: a capture-frame callback firing while isActive is false is a
complete no-op — no state change, no level report, no send — and disconnect
emits the mark-inactive write as its very first effect, before the await of
the transport close, so stale frame callbacks observe inactivity. -/
theorem claim_C8_stale_frame (st st2 : ManagerState) (frame : List ℚ)
    (h : isActive st = false) :
    onaudioprocess st frame = (st, []) ∧
    Effect.sendFrame ∉ (onaudioprocess st frame).2 ∧
    (disconnect st2).2.head? = some Effect.setInactive := by
  have ha : st.active = false := h
  have hz : onaudioprocess st frame = (st, []) := by
    unfold onaudioprocess
    rw [ha]
    rfl
  refine ⟨hz, by simp [hz], ?_⟩
  simp [disconnect]

/-- Witness for C8 on a fresh manager. -/
theorem claim_C8_witness :
    onaudioprocess initialState [] = (initialState, []) ∧
    Effect.sendFrame ∉ (onaudioprocess initialState []).2 ∧
    (disconnect initialState).2.head? = some Effect.setInactive :=
  claim_C8_stale_frame initialState initialState [] rfl

/-- C9: disconnect is idempotent and always succeeds for the caller: it is a
total function whose effects never include an onError callback (close faults
are caught), the manager is inactive after it, and a second call closes
nothing, stops nothing, raises nothing, and leaves the manager inactive. -/
theorem claim_C9_disconnect_idempotent (st : ManagerState) :
    isActive (disconnect st).1 = false ∧
    (∀ m, Effect.onErrorCall m ∉ (disconnect st).2) ∧
    (disconnect (disconnect st).1).2 =
      [Effect.setInactive, Effect.ctxCloseInput, Effect.ctxCloseOutput] ∧
    isActive (disconnect (disconnect st).1).1 = false := by
  refine ⟨by simp [disconnect, isActive], ?_, ?_, by simp [disconnect, isActive]⟩
  · intro m
    cases hs : st.sessionPromise with
    | none => simp [disconnect, hs]
    | some hd =>
        cases hf : hd.closeFails <;> simp [disconnect, hs, hf]
  · simp [disconnect]

/-- Start times carried by the scheduleChunk effects of an effect list. -/
def scheduledStarts (effs : List Effect) : List ℚ :=
  effs.filterMap (fun e =>
    match e with
    | Effect.scheduleChunk s _ => some s
    | _ => none)

/-- Start times produced by delivering a run of audio messages, each given
as the playback clock reading at its decode completion together with the
decoded buffer duration, in decode-completion order. -/
def audioStarts (st : ManagerState) : List (ℚ × ℚ) → List ℚ
  | [] => []
  | (t, d) :: rest =>
      scheduledStarts (onmessage st (some d) false t true).2 ++
      audioStarts (onmessage st (some d) false t true).1 rest

lemma onmessage_audio_eq (st : ManagerState) (t d : ℚ)
    (h1 : st.active = true) (h2 : st.outputCtxOpen = true)
    (h3 : st.outputGainPresent = true) :
    onmessage st (some d) false t true =
      ({ st with
          nextStartTime := max st.nextStartTime t + d
          sources := st.sources ++ [{ finished := false }] },
       [Effect.scheduleChunk (max st.nextStartTime t) d,
        Effect.onLevelCall (1 / 2)]) := by
  unfold onmessage
  rw [h1, h2, h3]
  rfl

lemma audioStarts_cons (st : ManagerState) (t d : ℚ) (rest : List (ℚ × ℚ))
    (h1 : st.active = true) (h2 : st.outputCtxOpen = true)
    (h3 : st.outputGainPresent = true) :
    audioStarts st ((t, d) :: rest) =
      max st.nextStartTime t ::
      audioStarts
        { st with
            nextStartTime := max st.nextStartTime t + d
            sources := st.sources ++ [{ finished := false }] } rest := by
  unfold audioStarts
  rw [onmessage_audio_eq st t d h1 h2 h3]
  simp only [scheduledStarts, List.filterMap]
  cases rest with
  | nil => rfl
  | cons q rest2 => rfl

lemma audioStarts_chain (msgs : List (ℚ × ℚ)) :
    ∀ st : ManagerState, st.active = true → st.outputCtxOpen = true →
      st.outputGainPresent = true →
      ∀ i, i + 1 < msgs.length →
        (audioStarts st msgs).getD i 0 + (msgs.getD i (0, 0)).2
            ≤ (audioStarts st msgs).getD (i + 1) 0 ∧
        ((msgs.getD (i + 1) (0, 0)).1
            ≤ (audioStarts st msgs).getD i 0 + (msgs.getD i (0, 0)).2 →
          (audioStarts st msgs).getD (i + 1) 0
              = (audioStarts st msgs).getD i 0 + (msgs.getD i (0, 0)).2) := by
  induction msgs with
  | nil =>
      intro st _ _ _ i hi
      simp at hi
  | cons p rest ih =>
      obtain ⟨t, d⟩ := p
      intro st h1 h2 h3 i hi
      rw [audioStarts_cons st t d rest h1 h2 h3]
      have h1b : ({ st with
          nextStartTime := max st.nextStartTime t + d
          sources := st.sources ++ [{ finished := false }] } : ManagerState).active
              = true := h1
      cases i with
      | zero =>
          cases rest with
          | nil => simp at hi
          | cons q rest2 =>
              obtain ⟨t1, d1⟩ := q
              rw [audioStarts_cons _ t1 d1 rest2 h1b h2 h3]
              dsimp only
              refine ⟨le_max_left _ _, fun hle => max_eq_left hle⟩
      | succ j =>
          have hj : j + 1 < rest.length := by
            simp only [List.length_cons] at hi
            omega
          have hrec := ih { st with
              nextStartTime := max st.nextStartTime t + d
              sources := st.sources ++ [{ finished := false }] } h1b h2 h3 j hj
          simpa [List.getD_cons_succ] using hrec

/-- C1: on an active session, each audio chunk is scheduled to start at
max(nextStartTime, playback clock) and nextStartTime advances by the chunk
duration immediately upon scheduling; consequently, over any run of audio
messages indexed by decode-completion order (which is the order the handler
assigns start times in, even when a later chunk decodes before an earlier
one arrived), consecutive start times never overlap, and they abut exactly
whenever the next chunk arrives no later than its predecessor finishes. -/
theorem claim_C1_scheduling (st : ManagerState) (msgs : List (ℚ × ℚ))
    (h1 : st.active = true) (h2 : st.outputCtxOpen = true)
    (h3 : st.outputGainPresent = true)
    (hsorted : List.Chain' (fun a b : ℚ × ℚ => a.1 < b.1) msgs) :
    (∀ t d : ℚ,
      (onmessage st (some d) false t true).1.nextStartTime
          = max st.nextStartTime t + d ∧
      Effect.scheduleChunk (max st.nextStartTime t) d
          ∈ (onmessage st (some d) false t true).2) ∧
    ∀ i, i + 1 < msgs.length →
      (audioStarts st msgs).getD i 0 + (msgs.getD i (0, 0)).2
          ≤ (audioStarts st msgs).getD (i + 1) 0 ∧
      ((msgs.getD (i + 1) (0, 0)).1
          ≤ (audioStarts st msgs).getD i 0 + (msgs.getD i (0, 0)).2 →
        (audioStarts st msgs).getD (i + 1) 0
            = (audioStarts st msgs).getD i 0 + (msgs.getD i (0, 0)).2) := by
  refine ⟨fun t d => ?_, audioStarts_chain msgs st h1 h2 h3⟩
  rw [onmessage_audio_eq st t d h1 h2 h3]
  exact ⟨rfl, by simp⟩

/-- Witness for C1: three chunks with decode-completion clocks 0, 1, 6 and
durations 2, 3, 1 on a freshly opened session. -/
theorem claim_C1_witness :
    (∀ t d : ℚ,
      (onmessage
          { active := true, nextStartTime := 0, sources := [],
            inputCtxOpen := true, outputCtxOpen := true,
            outputGainPresent := true, sessionPromise := some ⟨false⟩ }
          (some d) false t true).1.nextStartTime
          = max (0 : ℚ) t + d ∧
      Effect.scheduleChunk (max (0 : ℚ) t) d
          ∈ (onmessage
              { active := true, nextStartTime := 0, sources := [],
                inputCtxOpen := true, outputCtxOpen := true,
                outputGainPresent := true, sessionPromise := some ⟨false⟩ }
              (some d) false t true).2) ∧
    ∀ i, i + 1 < ([((0 : ℚ), (2 : ℚ)), (1, 3), (6, 1)] : List (ℚ × ℚ)).length →
      (audioStarts
          { active := true, nextStartTime := 0, sources := [],
            inputCtxOpen := true, outputCtxOpen := true,
            outputGainPresent := true, sessionPromise := some ⟨false⟩ }
          [((0 : ℚ), (2 : ℚ)), (1, 3), (6, 1)]).getD i 0 +
        (([((0 : ℚ), (2 : ℚ)), (1, 3), (6, 1)] : List (ℚ × ℚ)).getD i (0, 0)).2
          ≤ (audioStarts
              { active := true, nextStartTime := 0, sources := [],
                inputCtxOpen := true, outputCtxOpen := true,
                outputGainPresent := true, sessionPromise := some ⟨false⟩ }
              [((0 : ℚ), (2 : ℚ)), (1, 3), (6, 1)]).getD (i + 1) 0 ∧
      ((([((0 : ℚ), (2 : ℚ)), (1, 3), (6, 1)] : List (ℚ × ℚ)).getD (i + 1) (0, 0)).1
          ≤ (audioStarts
              { active := true, nextStartTime := 0, sources := [],
                inputCtxOpen := true, outputCtxOpen := true,
                outputGainPresent := true, sessionPromise := some ⟨false⟩ }
              [((0 : ℚ), (2 : ℚ)), (1, 3), (6, 1)]).getD i 0 +
            (([((0 : ℚ), (2 : ℚ)), (1, 3), (6, 1)] : List (ℚ × ℚ)).getD i (0, 0)).2 →
        (audioStarts
            { active := true, nextStartTime := 0, sources := [],
              inputCtxOpen := true, outputCtxOpen := true,
              outputGainPresent := true, sessionPromise := some ⟨false⟩ }
            [((0 : ℚ), (2 : ℚ)), (1, 3), (6, 1)]).getD (i + 1) 0
            = (audioStarts
                { active := true, nextStartTime := 0, sources := [],
                  inputCtxOpen := true, outputCtxOpen := true,
                  outputGainPresent := true, sessionPromise := some ⟨false⟩ }
                [((0 : ℚ), (2 : ℚ)), (1, 3), (6, 1)]).getD i 0 +
              (([((0 : ℚ), (2 : ℚ)), (1, 3), (6, 1)] : List (ℚ × ℚ)).getD i (0, 0)).2) :=
  claim_C1_scheduling
    { active := true, nextStartTime := 0, sources := [],
      inputCtxOpen := true, outputCtxOpen := true,
      outputGainPresent := true, sessionPromise := some ⟨false⟩ }
    [((0 : ℚ), (2 : ℚ)), (1, 3), (6, 1)] rfl rfl rfl
    (by norm_num [List.chain'_cons, List.chain'_singleton])

/-- C10 (implicit): the synchronous prefix of connect flips isActive to true
on an idle manager before the microphone or transport awaits, so Connecting
is indistinguishable from Open through isActive; and across every event of
the manager, isActive only falls from true to false on microphone denial,
transport error, transport close, or disconnect. -/
theorem claim_C10_isActive_lifecycle (st : ManagerState) (h : st.active = false) :
    isActive (connectBegin st) = true ∧
    (∀ (s : ManagerState) (e : Event), isActive s = true →
      isActive (step s e).1 = false →
        e = Event.evMicResult false ∨ (∃ m, e = Event.evError m) ∨
        e = Event.evClose ∨ e = Event.evDisconnect) := by
  constructor
  · simp [connectBegin, isActive, h]
  · intro s e ha hb
    have ha2 : s.active = true := ha
    cases e with
    | evConnectBegin =>
        rw [show step s Event.evConnectBegin = (connectBegin s, []) from rfl] at hb
        rw [show connectBegin s = s from by simp [connectBegin, ha2]] at hb
        simp [isActive, ha2] at hb
    | evMicResult g =>
        cases g with
        | false => exact Or.inl rfl
        | true =>
            rw [show (step s (Event.evMicResult true)).1
                = { s with sessionPromise := some { closeFails := false } } from by
              simp [step, connectMicResult]] at hb
            simp [isActive, ha2] at hb
    | evTransportOpen =>
        rw [show (step s Event.evTransportOpen).1 = s from onTransportOpen_fst s] at hb
        simp [isActive, ha2] at hb
    | evMessage a i c d =>
        have hm : (step s (Event.evMessage a i c d)).1.active = s.active :=
          onmessage_fst_active s a i c d
        simp [isActive, hm, ha2] at hb
    | evFrame f =>
        rw [show (step s (Event.evFrame f)).1 = s from onaudioprocess_fst s f] at hb
        simp [isActive, ha2] at hb
    | evChunkEnded i =>
        simp [step, chunkEnded, isActive, ha2] at hb
    | evClose => exact Or.inr (Or.inr (Or.inl rfl))
    | evError m => exact Or.inr (Or.inl ⟨m, rfl⟩)
    | evDisconnect => exact Or.inr (Or.inr (Or.inr rfl))

/-- Witness for C10 on a fresh manager. -/
theorem claim_C10_witness :
    isActive (connectBegin initialState) = true ∧
    (∀ (s : ManagerState) (e : Event), isActive s = true →
      isActive (step s e).1 = false →
        e = Event.evMicResult false ∨ (∃ m, e = Event.evError m) ∨
        e = Event.evClose ∨ e = Event.evDisconnect) :=
  claim_C10_isActive_lifecycle initialState rfl

end LiveSessionManager
